import Mathlib

/-!
Shallow embedding of `tinyeditor` (src/src/main.rs), a minimal terminal
text editor, together with theorems settling the spec's claims.

The data model follows the source:
* a Document (`buffer : Vec<String>`) is a `List (List Char)`, each line a
  sequence of Unicode scalar values;
* Rust's `String::len` is the UTF-8 byte length, embedded as `byteLen`;
* the cursor is the pair of `usize` variables `line` and `column`;
* operations that can panic in Rust (`unwrap`/`expect`, index out of
  bounds, `usize` underflow in a debug build followed by an out-of-bounds
  index in a release build) return `Option`, with `none` for a panic.
-/

namespace TinyEditor

/-- Rust `String::len`: the UTF-8 byte length of a line, as opposed to its
scalar-value count `List.length`. `Char.utf8Size` is exactly the number of
bytes Rust uses to store the scalar value. -/
def byteLen (l : List Char) : Nat := (l.map Char.utf8Size).sum

/-- Editor state: the document buffer plus the cursor (`line`, `column`),
mirroring the three mutable locals of `main`. -/
structure EdState where
  buffer : List (List Char)
  line : Nat
  column : Nat
deriving Repr, DecidableEq

/-- Rust `char::is_control`: the Unicode `Cc` category,
U+0000..U+001F and U+007F..U+009F. -/
def is_control (c : Char) : Bool :=
  c.toNat < 0x20 || (0x7F ≤ c.toNat && c.toNat ≤ 0x9F)

/-- The insertion position used by the `_` arm of `main`'s match:
`line_.char_indices().nth(column)` gives the byte index of scalar number
`column` when `column < L`, and `unwrap_or(line_.len())` appends at the end
otherwise.  On the scalar-value list this is take/insert/drop, which for
`column > L` degenerates to appending at the end, exactly as in the source. -/
def insertAt (l : List Char) (c : Nat) (ch : Char) : List Char :=
  l.take c ++ ch :: l.drop c

/-- The `_` (printable character) arm of the dispatcher: no-op on control
characters, otherwise insert at the cursor column and advance the column.
`buffer.get_mut(line).unwrap()` panics when `line` is out of range (`none`). -/
def insertScalar (st : EdState) (ch : Char) : Option EdState :=
  if is_control ch then some st
  else if st.line < st.buffer.length then
    some ⟨st.buffer.set st.line (insertAt (st.buffer.getD st.line []) st.column ch),
          st.line, st.column + 1⟩
  else none

/-- The `'\x7F'` (backspace) arm of the dispatcher.
* `buffer.get_mut(line).unwrap()` panics when `line ≥ buffer.len()`.
* `column > 0`: `char_indices().nth(column-1)` gives the byte index of
  scalar `column-1` when it exists; otherwise `map_or(0, ...)` yields byte
  index 0, so `String::remove` deletes the first scalar of a non-empty
  line and panics on an empty one.
* `column = 0` and `buffer.len() > 1`: the source reads
  `buffer[line - 1]`; when `line = 0` the `usize` subtraction underflows
  (debug panic; in release it wraps and the index is out of bounds), so
  this is a panic either way, embedded as `none`.  Otherwise the current
  line is appended to the previous one (`column` is set to the previous
  line's *byte* length first), the current line is removed, `line`
  decreases by one. -/
def backspace (st : EdState) : Option EdState :=
  if st.line < st.buffer.length then
    let lc := st.buffer.getD st.line []
    if 0 < st.column then
      if st.column - 1 < lc.length then
        some ⟨st.buffer.set st.line (lc.eraseIdx (st.column - 1)), st.line, st.column - 1⟩
      else if lc.length ≠ 0 then
        some ⟨st.buffer.set st.line (lc.eraseIdx 0), st.line, st.column - 1⟩
      else none
    else if 1 < st.buffer.length then
      if st.line = 0 then none
      else
        some ⟨(st.buffer.set (st.line - 1) (st.buffer.getD (st.line - 1) [] ++ lc)).eraseIdx st.line,
              st.line - 1, byteLen (st.buffer.getD (st.line - 1) [])⟩
    else some st
  else none

/-- The `'\n'` / `'\r'` arms: `line += 1; column = 0;`
`buffer.insert(line, "")`. `Vec::insert` panics when the index exceeds the
length. -/
def splitLine (st : EdState) : Option EdState :=
  if st.line + 1 ≤ st.buffer.length then
    some ⟨st.buffer.insertIdx (st.line + 1) [], st.line + 1, 0⟩
  else none

/-- Arrow up `ESC [ A`: `line = line.saturating_sub(1).max(0)` (`Nat` subtraction is
saturating). -/
def moveUp (st : EdState) : EdState := ⟨st.buffer, st.line - 1, st.column⟩

/-- Arrow down `ESC [ B`: `line = (line + 1).min(buffer.len() - 1)`; the subtraction
underflows when the buffer is empty. -/
def moveDown (st : EdState) : Option EdState :=
  if st.buffer.length = 0 then none
  else some ⟨st.buffer, min (st.line + 1) (st.buffer.length - 1), st.column⟩

/-- Arrow right `ESC [ C`: `column = (column + 1).min(buffer[line].len())` — note the
clamp is to the *byte* length; the index panics when `line` is out of range. -/
def moveRight (st : EdState) : Option EdState :=
  if st.line < st.buffer.length then
    some ⟨st.buffer, st.line, min (st.column + 1) (byteLen (st.buffer.getD st.line []))⟩
  else none

/-- Arrow left `ESC [ D`: `column = column.saturating_sub(1).max(0)`. -/
def moveLeft (st : EdState) : EdState := ⟨st.buffer, st.line, st.column - 1⟩

/-- One decoded input event, as produced by `read_utf8_or_escape`:
either a scalar value or a completed escape sequence (as its bytes). -/
inductive Event where
  | scalar (c : Char)
  | escSeq (s : List Nat)
deriving Repr, DecidableEq

/-- The dispatch `match` of `main`'s loop, covering every arm: backspace,
the two enter arms, ctrl+Q and ctrl+S (which write the file but leave the
buffer and cursor untouched), printable insertion, the four arrow
sequences, and the ignored-escape default. -/
def applyEvent (st : EdState) (e : Event) : Option EdState :=
  match e with
  | .scalar c =>
    if c = '\x7F' then backspace st
    else if c = '\n' then splitLine st
    else if c = '\r' then splitLine st
    else if c = '\x11' then some st
    else if c = '\x13' then some st
    else insertScalar st c
  | .escSeq s =>
    if s = [0x1B, 0x5B, 0x41] then some (moveUp st)
    else if s = [0x1B, 0x5B, 0x42] then moveDown st
    else if s = [0x1B, 0x5B, 0x43] then moveRight st
    else if s = [0x1B, 0x5B, 0x44] then some (moveLeft st)
    else some st

/-- Prepend a character to the first piece of a split. -/
def consLine (c : Char) : List (List Char) → List (List Char)
  | [] => [[c]]
  | l :: ls => (c :: l) :: ls

/-- The initial load (`main`, the `for` over
`read_to_string(..).split("\n")`): split the file content on line feeds.
Like Rust's `str::split`, it yields `[""]` on empty input and a trailing
empty piece after a trailing separator. -/
def splitNL : List Char → List (List Char)
  | [] => [[]]
  | c :: rest => if c = '\n' then [] :: splitNL rest else consLine c (splitNL rest)

/-- Saving (`write`): `buffer.join("\n")`, a single line feed between
consecutive lines and nothing appended at the end. -/
def joinNL : List (List Char) → List Char
  | [] => []
  | [l] => l
  | l :: l2 :: ls => l ++ '\n' :: joinNL (l2 :: ls)

/-! ### Input decoder (`read_utf8_or_escape`, non-escape path) -/

/-- The UTF-8 sequence length determined from the lead byte's bits
(lines 46–56): `none` is the `else` arm that returns `(Some('\u{FFFD}'), None)`
immediately. -/
def numBytes (b0 : Nat) : Option Nat :=
  if b0 < 0x80 then some 1
  else if b0 &&& 0xE0 = 0xC0 then some 2
  else if b0 &&& 0xF0 = 0xE0 then some 3
  else if b0 &&& 0xF8 = 0xF0 then some 4
  else none

/-- A UTF-8 continuation byte, `0x80..0xBF`. -/
def isCont (b : Nat) : Bool := 0x80 ≤ b && b ≤ 0xBF

/-- Validity and value of one complete UTF-8 sequence, exactly as
`std::str::from_utf8` checks it on a slice of that length: continuation
bytes in range, no overlong encoding, no surrogate, at most U+10FFFF. -/
def decodeSeq (bs : List Nat) : Option Nat :=
  match bs with
  | [b0] => if b0 < 0x80 then some b0 else none
  | [b0, b1] =>
    let cp := (b0 % 32) * 64 + b1 % 64
    if b0 &&& 0xE0 = 0xC0 && isCont b1 && 0x80 ≤ cp then some cp else none
  | [b0, b1, b2] =>
    let cp := (b0 % 16) * 4096 + (b1 % 64) * 64 + b2 % 64
    if b0 &&& 0xF0 = 0xE0 && isCont b1 && isCont b2 && 0x800 ≤ cp &&
        !(0xD800 ≤ cp && cp ≤ 0xDFFF) then some cp else none
  | [b0, b1, b2, b3] =>
    let cp := (b0 % 8) * 262144 + (b1 % 64) * 4096 + (b2 % 64) * 64 + b3 % 64
    if b0 &&& 0xF8 = 0xF0 && isCont b1 && isCont b2 && isCont b3 &&
        0x10000 ≤ cp && cp ≤ 0x10FFFF then some cp else none
  | _ => none

/-- U+FFFD, the replacement character substituted on every decode failure. -/
def replacement : Char := '�'

/-- Decoding as in `str::from_utf8(&buf[0..num_bytes]).unwrap_or("\u{FFFD}")` followed by
`.chars().next()`: the decoded scalar value, or U+FFFD if the bytes are not
valid UTF-8. -/
def decodeOrReplace (bs : List Nat) : Char :=
  match decodeSeq bs with
  | some cp => Char.ofNat cp
  | none => replacement

/-- The non-escape path of `read_utf8_or_escape`: given the first byte `b0`
and the remaining input stream, produce the scalar event.  An invalid lead
byte yields U+FFFD without reading further; otherwise the continuation
bytes are read (`none` models the `read_exact(..).expect(..)` panic when
the stream is too short — an I/O fault, not a decode failure) and the
sequence is decoded with U+FFFD as the fallback. -/
def read_scalar (b0 : Nat) (rest : List Nat) : Option Char :=
  match numBytes b0 with
  | none => some replacement
  | some n =>
    if rest.length < n - 1 then none
    else some (decodeOrReplace (b0 :: rest.take (n - 1)))

/-! ### Input decoder (escape-collection loop, lines 31–44) -/

/-- Outcome of one iteration of the escape-collection loop. -/
inductive EscStep where
  | done (s : List Nat)
  | more (s : List Nat)
  | fail
deriving Repr, DecidableEq

/-- One iteration of the loop: read byte `b`, append it to the accumulated
sequence via `String::from_utf8(vec![b]).unwrap()` — which panics
(`EscStep.fail`) when `b ≥ 0x80`, since a lone non-ASCII byte is not valid
UTF-8 — then return the sequence if `b >= 64 && b < 127 && b != 91`,
else keep looping. -/
def escapeStep (acc : List Nat) (b : Nat) : EscStep :=
  if b < 0x80 then
    if 64 ≤ b && b < 127 && b != 91 then .done (acc ++ [b])
    else .more (acc ++ [b])
  else .fail

/-! ### Renderer (`draw_buffer`, lines 91–115) -/

/-- The content printed for screen row `row` (the loop variable
`current_line`): the document line shown is `buffer[row + start_line]`,
the full-line test compares the *byte* length with `width`, and the
cursor-line test is `line == current_line` — the cursor's *document* line
index against the *screen row* index.  The trailing-truncation branch
skips `curr_str.len() - width` (bytes minus width) scalar values and takes
`width` of what remains.  (The source indexes the buffer directly and
panics out of bounds; theorems below restrict to in-bounds rows.) -/
def drawRow (buffer : List (List Char)) (startLine cursorLine width row : Nat) : List Char :=
  let s := buffer.getD (row + startLine) []
  if byteLen s < width then s
  else if cursorLine = row then (s.drop (byteLen s - width)).take width
  else s.take width

/-- The row content the claim describes, written from the spec's words: a
line whose scalar-value length fits within `width` is printed in full; a
longer line prints its trailing `width` scalar values when it is the
cursor's document line, and its leading `width` scalar values otherwise. -/
def drawRowClaim (buffer : List (List Char)) (startLine cursorLine width row : Nat) : List Char :=
  let s := buffer.getD (row + startLine) []
  if s.length ≤ width then s
  else if cursorLine = row + startLine then s.drop (s.length - width)
  else s.take width

/-! ### Viewport recomputation (`main`, lines 201–216) -/

/-- The modulus `2^64` of `usize` arithmetic on the source's platform. -/
def U64 : Nat := 2 ^ 64

/-- Wrapping `usize` addition. -/
def wadd (a b : Nat) : Nat := (a + b) % U64

/-- Wrapping `usize` subtraction (for arguments below `U64`). -/
def wsub (a b : Nat) : Nat := (a + U64 - b % U64) % U64

/-- The viewport recomputation run after every event, on previous
`start_line = s0`, cursor line, terminal height and buffer length:
the two 8-line-margin adjustments (the first uses `saturating_sub`, the
second plain `usize` arithmetic, embedded with release-mode wrapping),
then `start_line.max(0)` (the identity on `usize`) and the final clamp
that forces `start_line = 0` when the buffer fits on the screen. -/
def recompute (s0 line height len : Nat) : Nat :=
  let s1 := if line < wadd s0 8 then line - 8 else s0
  let s2 := if wsub (wadd s1 height) 8 ≤ line then wadd (wsub line (wsub height 8)) 1 else s1
  if height < len then min s2 (len - height) else 0

/-! ## Helper lemmas -/

/-- Setting index `i` and then erasing index `i + 1` replaces line `i` and
drops line `i + 1`, leaving everything else in place. -/
lemma set_eraseIdx_succ {α : Type} (l : List α) (i : Nat) (v : α) (h : i + 1 < l.length) :
    (l.set i v).eraseIdx (i + 1) = l.take i ++ v :: l.drop (i + 2) := by
  induction l generalizing i with
  | nil => simp at h
  | cons a t ih =>
    cases i with
    | zero =>
      simp only [List.set_cons_zero, List.eraseIdx_cons_succ, List.take_zero, List.nil_append,
        List.drop_succ_cons, List.drop_one]
      cases t <;> simp
    | succ n =>
      simp only [List.length_cons] at h
      simp only [List.set_cons_succ, List.eraseIdx_cons_succ, List.take_succ_cons,
        List.drop_succ_cons, List.cons_append]
      rw [ih n (by omega)]

/-- Splitting never returns the empty list of lines. -/
lemma splitNL_ne_nil (content : List Char) : splitNL content ≠ [] := by
  cases content with
  | nil => simp [splitNL]
  | cons c rest =>
    simp only [splitNL]
    by_cases hc : c = '\n'
    · simp [hc]
    · rw [if_neg hc]
      cases h : splitNL rest <;> simp [consLine]

/-! ## Claims -/

/-- C1: the spec says Backspace at `(0, 0)` is a no-op on any Document.
That holds for a one-line Document, but with more than one line the source
takes the `buffer.len() > 1` merge branch and evaluates `buffer[line - 1]`
with `line = 0`: the `usize` subtraction underflows and the access panics,
crashing the editor instead of doing nothing. -/
theorem C1_backspace_at_origin :
    backspace ⟨[['a']], 0, 0⟩ = some ⟨[['a']], 0, 0⟩ ∧
    backspace ⟨[['a'], ['b']], 0, 0⟩ = none := by decide

/-- C2 counterexample: with previous line `"é"` (one scalar value, two
UTF-8 bytes) and the cursor at `(1, 0)`, Backspace lands the cursor at
column `2` — the previous line's byte length — while the claim requires
the scalar-value count `1`. -/
theorem C2_column_is_byte_length :
    backspace ⟨[['é'], ['x']], 1, 0⟩ = some ⟨[['é', 'x']], 0, 2⟩ ∧
    [('é' : Char)].length = 1 ∧ (2 : Nat) ≠ 1 := by decide

/-- C2 amended: Backspace at column 0 on line `0 < line < buffer.length`
appends the current line to the previous one, removes the current line
(so the Document shrinks by exactly one line, all other lines kept in
order), and puts the cursor on the previous line at its pre-merge
*UTF-8 byte* length (not its scalar-value count). -/
theorem C2_backspace_merges (buffer : List (List Char)) (line column : Nat)
    (hc : column = 0) (h0 : 0 < line) (hl : line < buffer.length) :
    backspace ⟨buffer, line, column⟩ =
      some ⟨buffer.take (line - 1) ++
              (buffer.getD (line - 1) [] ++ buffer.getD line []) :: buffer.drop (line + 1),
            line - 1, byteLen (buffer.getD (line - 1) [])⟩ ∧
    (buffer.take (line - 1) ++
        (buffer.getD (line - 1) [] ++ buffer.getD line []) :: buffer.drop (line + 1)).length
      = buffer.length - 1 := by
  subst hc
  constructor
  · obtain ⟨i, rfl⟩ : ∃ i, line = i + 1 := ⟨line - 1, by omega⟩
    simp only [backspace, Nat.add_sub_cancel]
    split_ifs with h1 h2 h3 h4 h5
    all_goals try omega
    all_goals try contradiction
    rw [set_eraseIdx_succ buffer i _ (by omega)]
  · simp only [List.length_append, List.length_cons, List.length_take, List.length_drop]
    omega

/-- C2 witness: merging `"b"` into `"a"` by the amended theorem. -/
theorem C2_backspace_merges_witness :
    backspace ⟨[['a'], ['b']], 1, 0⟩ =
      some ⟨[['a', 'b']], 0, byteLen ['a']⟩ ∧ ([[('a' : Char), 'b']]).length = 1 := by
  have h := C2_backspace_merges [['a'], ['b']] 1 0 rfl (by decide) (by decide)
  exact ⟨h.1.trans (by decide), by decide⟩

/-- C5: loading a file (splitting the content on line feeds) and saving it
unedited (joining the lines with single line feeds) reproduces the
original content byte for byte, trailing-newline-induced empty last line
included. -/
theorem C5_load_save_roundtrip (content : List Char) :
    joinNL (splitNL content) = content := by
  induction content with
  | nil => rfl
  | cons c rest ih =>
    simp only [splitNL]
    by_cases hc : c = '\n'
    · subst hc
      rw [if_pos rfl]
      cases h : splitNL rest with
      | nil => exact absurd h (splitNL_ne_nil rest)
      | cons l ls =>
        rw [h] at ih
        simp only [joinNL, List.nil_append]
        rw [ih]
    · rw [if_neg hc]
      cases h : splitNL rest with
      | nil => exact absurd h (splitNL_ne_nil rest)
      | cons l ls =>
        rw [h] at ih
        simp only [consLine]
        cases ls with
        | nil => simp only [joinNL] at ih ⊢; rw [ih]
        | cons l2 ls2 =>
          simp only [joinNL, List.cons_append] at ih ⊢
          rw [ih]

/-- C3 counterexample: with `startLine = 1` the screen row `0` shows
document line `1`, which is the cursor's line, yet the source's test
`line == current_line` compares the cursor's document line index with the
screen row, so the code prints the leading scalar values where the claim
requires the trailing ones. -/
theorem C3_cursor_row_confusion :
    drawRow [[], ['a', 'b', 'c']] 1 1 2 0 = ['a', 'b'] ∧
    drawRowClaim [[], ['a', 'b', 'c']] 1 1 2 0 = ['b', 'c'] ∧
    (['a', 'b'] : List Char) ≠ ['b', 'c'] := by decide

/-- C3 amended: for every visible row `row` (showing document line
`row + startLine`), a line whose *UTF-8 byte* length is below `width` is
printed in full; otherwise, when the cursor's document line index equals
the *screen row* index, the scalar values remaining after skipping
`byteLen − width` of them are printed (at most `width`), and otherwise the
leading `width` scalar values are printed. -/
theorem C3_draw_row (buffer : List (List Char)) (startLine cursorLine width row : Nat)
    (h : row + startLine < buffer.length) :
    (byteLen (buffer.getD (row + startLine) []) < width →
      drawRow buffer startLine cursorLine width row = buffer.getD (row + startLine) []) ∧
    (width ≤ byteLen (buffer.getD (row + startLine) []) → cursorLine = row →
      drawRow buffer startLine cursorLine width row =
        ((buffer.getD (row + startLine) []).drop
          (byteLen (buffer.getD (row + startLine) []) - width)).take width) ∧
    (width ≤ byteLen (buffer.getD (row + startLine) []) → cursorLine ≠ row →
      drawRow buffer startLine cursorLine width row =
        (buffer.getD (row + startLine) []).take width) := by
  refine ⟨fun hfit => ?_, fun hlong hcur => ?_, fun hlong hcur => ?_⟩
  · rw [drawRow, if_pos hfit]
  · rw [drawRow, if_neg (by omega), if_pos hcur]
  · rw [drawRow, if_neg (by omega), if_neg hcur]

/-- C3 witness: the cursor's line at `startLine = 0` is trailing-truncated. -/
theorem C3_draw_row_witness :
    drawRow [['a', 'b', 'c']] 0 0 2 0 = ['b', 'c'] := by
  have h := (C3_draw_row [['a', 'b', 'c']] 0 0 2 0 (by decide)).2.1 (by decide) rfl
  exact h.trans (by decide)

/-- C4 counterexample: byte `0x7E` is outside the claim's terminator range
`[0x40, 0x7E)`, yet the source's test `byte < 127` accepts it, so the
collection loop returns instead of continuing. -/
theorem C4_tilde_terminates :
    escapeStep [0x1B, 0x5B] 0x7E = EscStep.done [0x1B, 0x5B, 0x7E] ∧
    ¬ (0x40 ≤ 0x7E ∧ (0x7E : Nat) < 0x7E ∧ (0x7E : Nat) ≠ 0x5B) := by decide

/-- C4 amended: in escape-collection mode the decoder returns the
accumulated sequence immediately after reading `b` iff `b` is in
`[0x40, 0x7F)` (not `[0x40, 0x7E)`) and `b ≠ 0x5B`; any other byte below
`0x80` is appended and the loop continues; a byte `≥ 0x80` panics in
`String::from_utf8(..).unwrap()` rather than being appended. -/
theorem C4_escape_collection (acc : List Nat) (b : Nat) :
    (b < 0x80 →
      ((escapeStep acc b = EscStep.done (acc ++ [b])) ↔ (0x40 ≤ b ∧ b < 0x7F ∧ b ≠ 0x5B)) ∧
      (¬ (0x40 ≤ b ∧ b < 0x7F ∧ b ≠ 0x5B) → escapeStep acc b = EscStep.more (acc ++ [b]))) ∧
    (0x80 ≤ b → escapeStep acc b = EscStep.fail) := by
  unfold escapeStep
  constructor
  · intro hb
    rw [if_pos hb]
    by_cases hcond : 0x40 ≤ b ∧ b < 0x7F ∧ b ≠ 0x5B
    · have hbool : (64 ≤ b && b < 127 && b != 91) = true := by
        simp only [Bool.and_eq_true, decide_eq_true_eq, bne_iff_ne]
        omega
      rw [if_pos hbool]
      exact ⟨⟨fun _ => hcond, fun _ => rfl⟩, fun h => absurd hcond h⟩
    · have hbool : ¬ ((64 ≤ b && b < 127 && b != 91) = true) := by
        simp only [Bool.and_eq_true, decide_eq_true_eq, bne_iff_ne]
        omega
      rw [if_neg hbool]
      exact ⟨⟨fun h => by simp at h, fun h => absurd h hcond⟩, fun _ => rfl⟩
  · intro hb
    rw [if_neg (by omega)]

/-- C4 witness: byte `0x41` (`A`) terminates the sequence. -/
theorem C4_escape_collection_witness :
    escapeStep [0x1B, 0x5B] 0x41 = EscStep.done [0x1B, 0x5B, 0x41] :=
  ((C4_escape_collection [0x1B, 0x5B] 0x41).1 (by decide)).1.mpr (by decide)

/-- Helper: inserting within the line grows it by exactly one scalar. -/
lemma insertAt_length (l : List Char) (c : Nat) (ch : Char) (hc : c ≤ l.length) :
    (insertAt l c ch).length = l.length + 1 := by
  simp [insertAt]
  omega

/-- Helper: the inserted scalar sits at position `c`. -/
lemma insertAt_getElem (l : List Char) (c : Nat) (ch : Char) (hc : c ≤ l.length) :
    (insertAt l c ch)[c]? = some ch := by
  rw [insertAt, List.getElem?_append_right (by simp [List.length_take])]
  simp [List.length_take, Nat.min_eq_left hc]

/-- C6: inserting a non-control scalar value at a column `c ≤ L` of the
cursor's line yields that line with length `L + 1` and the new value at
scalar position `c`, moves the cursor column to `c + 1`, stays on the same
line, and leaves every other line of the Document unchanged; a control
character is a no-op. -/
theorem C6_insert_scalar (buffer : List (List Char)) (line column : Nat) (ch : Char)
    (hl : line < buffer.length) (hc : column ≤ (buffer.getD line []).length) :
    (is_control ch = true →
      insertScalar ⟨buffer, line, column⟩ ch = some ⟨buffer, line, column⟩) ∧
    (is_control ch = false →
      ∃ st', insertScalar ⟨buffer, line, column⟩ ch = some st' ∧
        (st'.buffer.getD line []).length = (buffer.getD line []).length + 1 ∧
        (st'.buffer.getD line [])[column]? = some ch ∧
        st'.line = line ∧ st'.column = column + 1 ∧
        ∀ i, i ≠ line → st'.buffer[i]? = buffer[i]?) := by
  have hset : ((buffer.set line (insertAt (buffer.getD line []) column ch)).getD line [])
      = insertAt (buffer.getD line []) column ch := by
    rw [List.getD_eq_getElem?_getD, List.getElem?_set_self' ..]
    simp [hl]
  constructor
  · intro hctrl
    rw [insertScalar, if_pos hctrl]
  · intro hctrl
    rw [insertScalar, if_neg (by simp [hctrl]), if_pos hl]
    refine ⟨_, rfl, ?_, ?_, rfl, rfl, ?_⟩
    · show ((buffer.set line (insertAt (buffer.getD line []) column ch)).getD line []).length = _
      rw [hset]
      exact insertAt_length _ _ _ hc
    · show ((buffer.set line (insertAt (buffer.getD line []) column ch)).getD line [])[column]?
          = some ch
      rw [hset]
      exact insertAt_getElem _ _ _ hc
    · intro i hi
      exact List.getElem?_set_ne (fun he => hi he.symm)

/-- C6 witness: inserting `'z'` in the middle of `"ab"` at column 1. -/
theorem C6_insert_scalar_witness :
    ∃ st', insertScalar ⟨[['a', 'b'], ['c']], 0, 1⟩ 'z' = some st' ∧
      (st'.buffer.getD 0 []).length = ([('a' : Char), 'b']).length + 1 ∧
      (st'.buffer.getD 0 [])[1]? = some 'z' ∧
      st'.line = 0 ∧ st'.column = 2 ∧
      ∀ i, i ≠ 0 → st'.buffer[i]? = ([[('a' : Char), 'b'], ['c']])[i]? :=
  (C6_insert_scalar [['a', 'b'], ['c']] 0 1 'z' (by decide) (by decide)).2 (by decide)

/-- C7: after the viewport recomputation — from any previous `start_line`
below `2^64` — a 100-line Document on a height-20 terminal with the cursor
on line 50 keeps the cursor at least 8 lines from both edges, and in
general the final clamp keeps `start_line` within
`[0, Document.len − height]`, forcing `start_line = 0` whenever the
Document fits on the screen. -/
theorem C7_viewport_margin_and_clamp (s0 line height len : Nat) (hs : s0 < U64) :
    ((line = 50 ∧ height = 20 ∧ len = 100) →
      8 ≤ line - recompute s0 line height len ∧
      8 ≤ recompute s0 line height len + height - line) ∧
    (height < len → recompute s0 line height len ≤ len - height) ∧
    (len ≤ height → recompute s0 line height len = 0) := by
  refine ⟨?_, fun h => ?_, fun h => ?_⟩
  · rintro ⟨rfl, rfl, rfl⟩
    simp only [recompute, wadd, wsub, U64] at *
    split_ifs <;> omega
  · simp only [recompute]
    rw [if_pos h]
    exact Nat.min_le_right _ _
  · simp only [recompute]
    rw [if_neg (by omega)]

/-- C7 witness: from `start_line = 0` the margins hold at line 50. -/
theorem C7_viewport_margin_and_clamp_witness :
    8 ≤ 50 - recompute 0 50 20 100 ∧ 8 ≤ recompute 0 50 20 100 + 20 - 50 :=
  (C7_viewport_margin_and_clamp 0 50 20 100 (by norm_num [U64])).1 ⟨rfl, rfl, rfl⟩

/-- Helper: a valid lead byte asks for at most 4 bytes. -/
lemma numBytes_le_four {b0 n : Nat} (h : numBytes b0 = some n) : n ≤ 4 := by
  unfold numBytes at h
  split_ifs at h <;> (injection h with h; omega)

/-- C8: with a first byte other than escape and at least 3 more bytes
available, the decoder always produces a scalar event (never an error):
an invalid lead byte yields U+FFFD immediately, and a lead byte whose
completed sequence is not valid UTF-8 also yields U+FFFD. -/
theorem C8_decode_never_fails (b0 : Nat) (rest : List Nat) (hb : b0 ≠ 0x1B)
    (hrest : 3 ≤ rest.length) :
    (read_scalar b0 rest).isSome = true ∧
    (numBytes b0 = none → read_scalar b0 rest = some replacement) ∧
    (∀ n, numBytes b0 = some n → decodeSeq (b0 :: rest.take (n - 1)) = none →
      read_scalar b0 rest = some replacement) := by
  cases hn : numBytes b0 with
  | none => simp [read_scalar, hn]
  | some n =>
    have h4 := numBytes_le_four hn
    have hlen : ¬ rest.length < n - 1 := by omega
    simp only [read_scalar, hn]
    rw [if_neg hlen]
    refine ⟨rfl, fun h => Option.noConfusion h, fun m hm hseq => ?_⟩
    obtain rfl : n = m := Option.some.inj hm
    simp only [decodeOrReplace, hseq]

/-- C8 witness: the invalid lead byte `0xFF` yields `Scalar(U+FFFD)`. -/
theorem C8_decode_never_fails_witness :
    read_scalar 0xFF [0, 0, 0] = some replacement :=
  (C8_decode_never_fails 0xFF [0, 0, 0] (by decide) (by decide)).2.1 (by decide)

/-- C10: when the cursor column is beyond the current line's scalar-value
length (reachable, since vertical movement does not clamp the column),
inserting a non-control scalar value does not fail: the value is appended
at the end of the line and the column still advances by 1. -/
theorem C10_insert_beyond_eol (buffer : List (List Char)) (line column : Nat) (ch : Char)
    (hl : line < buffer.length) (hc : (buffer.getD line []).length < column)
    (hctrl : is_control ch = false) :
    insertScalar ⟨buffer, line, column⟩ ch =
      some ⟨buffer.set line (buffer.getD line [] ++ [ch]), line, column + 1⟩ := by
  have hc' : (buffer.getD line []).length ≤ column := Nat.le_of_lt hc
  rw [insertScalar, if_neg (by simp [hctrl]), if_pos hl]
  rw [insertAt, List.take_of_length_le hc', List.drop_eq_nil_iff.mpr hc']

/-- C10 witness: column 5 on the two-scalar line `"ab"`. -/
theorem C10_insert_beyond_eol_witness :
    insertScalar ⟨[['a', 'b']], 0, 5⟩ 'z' =
      some ⟨[['a', 'b']].set 0 (['a', 'b'] ++ ['z']), 0, 6⟩ := by
  have h := C10_insert_beyond_eol [['a', 'b']] 0 5 'z' (by decide) (by decide) (by decide)
  exact h.trans (by decide)

/-- Helper: a successful Backspace leaves at least one line. -/
lemma backspace_length {st st' : EdState} (h : backspace st = some st') :
    1 ≤ st'.buffer.length := by
  simp only [backspace] at h
  split_ifs at h with h1 h2 h3 h4 h5 h6
  all_goals first
    | (obtain rfl := Option.some.inj h
       simp only [List.length_set, List.length_eraseIdx]
       first
         | omega
         | (split_ifs <;> omega))
    | (obtain rfl := Option.some.inj h
       omega)

/-- Helper: a successful character insertion does not change the line count. -/
lemma insertScalar_length {st : EdState} {ch : Char} {st' : EdState}
    (h : insertScalar st ch = some st') : st'.buffer.length = st.buffer.length := by
  unfold insertScalar at h
  split_ifs at h
  · obtain rfl := Option.some.inj h; rfl
  · obtain rfl := Option.some.inj h
    exact List.length_set ..

/-- Helper: a successful line split adds exactly one line. -/
lemma splitLine_length {st st' : EdState} (h : splitLine st = some st') :
    st'.buffer.length = st.buffer.length + 1 := by
  unfold splitLine at h
  split_ifs at h with hg
  obtain rfl := Option.some.inj h
  exact List.length_insertIdx _ _ hg

/-- Helper: vertical and horizontal movement never touch the buffer. -/
lemma moveDown_buffer {st st' : EdState} (h : moveDown st = some st') :
    st'.buffer = st.buffer := by
  unfold moveDown at h
  split_ifs at h
  obtain rfl := Option.some.inj h; rfl

/-- Helper: moving right never touches the buffer. -/
lemma moveRight_buffer {st st' : EdState} (h : moveRight st = some st') :
    st'.buffer = st.buffer := by
  unfold moveRight at h
  split_ifs at h
  obtain rfl := Option.some.inj h; rfl

/-- C9: the Document always has at least one line: the initial load
produces at least one line, and every dispatched operation — scalar
insertion, line split, backspace, cursor movement, save — preserves the
property whenever it completes. -/
theorem C9_document_never_empty :
    (∀ content : List Char, 1 ≤ (splitNL content).length) ∧
    (∀ (st st' : EdState) (e : Event), 1 ≤ st.buffer.length →
      applyEvent st e = some st' → 1 ≤ st'.buffer.length) := by
  constructor
  · intro content
    exact List.length_pos.mpr (splitNL_ne_nil content)
  · rintro st st' e h1 happ
    cases e with
    | scalar c =>
      simp only [applyEvent] at happ
      split_ifs at happ
      · exact backspace_length happ
      · rw [splitLine_length happ]; omega
      · rw [splitLine_length happ]; omega
      · obtain rfl := Option.some.inj happ; exact h1
      · obtain rfl := Option.some.inj happ; exact h1
      · rw [insertScalar_length happ]; exact h1
    | escSeq s =>
      simp only [applyEvent] at happ
      split_ifs at happ
      · obtain rfl := Option.some.inj happ; exact h1
      · rw [moveDown_buffer happ]; exact h1
      · rw [moveRight_buffer happ]; exact h1
      · obtain rfl := Option.some.inj happ; exact h1
      · obtain rfl := Option.some.inj happ; exact h1

/-- C9 witness: inserting `'a'` into the one-line empty document. -/
theorem C9_document_never_empty_witness :
    1 ≤ (EdState.mk [['a']] 0 1).buffer.length :=
  C9_document_never_empty.2 ⟨[[]], 0, 0⟩ ⟨[['a']], 0, 1⟩ (.scalar 'a')
    (by decide) (by decide)

end TinyEditor
